import Mathlib

/-!
Verification of the pryva vault security core (`pryva/crypto.py` and
`pryva/storage.py`) against its natural-language specification.

The Python code is shallowly embedded as executable Lean definitions:

* Byte strings (salts) are `List Nat`.
* PBKDF2 key derivation is modelled symbolically: it is a deterministic
  injective function of `(master password, salt)`, so a derived key is
  represented by that pair (`DerivedKey`).
* Argon2 password hashing is modelled symbolically: the verifier hash
  determines exactly the password it was produced from (plus the internal
  Argon2 salt, which makes two hashes of the same password distinct);
  `verify` succeeds iff the candidate equals that password
  (`VerifyMismatchError` is caught and becomes `false`, as in the source).
* A Fernet token is modelled symbolically as the triple
  (payload, key, nonce); authenticated decryption succeeds exactly when
  the key matches, and otherwise fails like `cryptography`'s
  `InvalidToken`.  The base64 wrapping in `encrypt_password` /
  `decrypt_password` is a bijection and is absorbed into the token model.
* A Python string cell that may hold either a plaintext (possibly empty)
  string or a Fernet-token string is represented by the sum type
  `FieldVal`; Python truthiness of such a cell is `FieldVal.truthy`
  (a token string is never empty, hence always truthy).
* A raised Python exception is an `Except.error` outcome; a normal return
  is `Except.ok`.  `VaultError` lists the exceptions the core can raise.
* Nondeterministic inputs of the real system (fresh Fernet nonces, the
  Argon2 internal salt, `os.urandom` salts, `CURRENT_TIMESTAMP`) are
  passed in as explicit parameters.
-/

/-- Equality of `Except` values is decidable componentwise (used to state
and check concrete runs of the fallible operations). -/
instance {ε α : Type} [DecidableEq ε] [DecidableEq α] :
    DecidableEq (Except ε α) := fun x y =>
  match x, y with
  | .ok a, .ok b =>
    if h : a = b then .isTrue (by rw [h]) else .isFalse (by simp [h])
  | .error a, .error b =>
    if h : a = b then .isTrue (by rw [h]) else .isFalse (by simp [h])
  | .ok _, .error _ => .isFalse (fun h => Except.noConfusion h)
  | .error _, .ok _ => .isFalse (fun h => Except.noConfusion h)

namespace Pryva

/-- A byte string (e.g. the 16-byte vault salt). -/
abbrev Salt := List Nat

/-- Symbolic PBKDF2-HMAC-SHA256 key: determined by master password and salt
(`derive_key` is deterministic and, idealized, injective). -/
structure DerivedKey where
  master : String
  salt : Salt
deriving DecidableEq

/-- `PasswordCrypto.derive_key`: derive the Fernet key from master password
and salt (PBKDF2, 100000 iterations, modelled symbolically). -/
def derive_key (master_password : String) (salt : Salt) : DerivedKey :=
  ⟨master_password, salt⟩

/-- Symbolic Argon2 verifier hash: self-contained, embeds its own salt. -/
structure MasterHash where
  password : String
  argonSalt : Nat
deriving DecidableEq

/-- `PasswordCrypto.hash_master_password`: Argon2 hash of the master
password; `argonSalt` is the random salt Argon2 generates internally. -/
def hash_master_password (password : String) (argonSalt : Nat) : MasterHash :=
  ⟨password, argonSalt⟩

/-- `PasswordCrypto.verify_master_password`: Argon2 verification; returns
`true` iff the candidate matches, catching `VerifyMismatchError` as
`false`. -/
def crypto_verify (password : String) (hashed : MasterHash) : Bool :=
  password == hashed.password

/-- Symbolic Fernet token: payload, the key it was produced under, and the
fresh nonce used for this encryption. -/
structure FernetToken where
  payload : String
  key : DerivedKey
  nonce : Nat
deriving DecidableEq

/-- One Python string cell of a record: either a plaintext string (the
code only ever stores empty plaintexts) or a Fernet-token string. -/
inductive FieldVal where
  | plain (s : String)
  | enc (t : FernetToken)
deriving DecidableEq

/-- Python truthiness of the string cell: `""` is falsy, every other
string — in particular every Fernet-token string — is truthy. -/
def FieldVal.truthy : FieldVal → Bool
  | .plain s => !s.isEmpty
  | .enc _ => true

/-- Exceptions the core can raise (`Except.error` = raised exception). -/
inductive VaultError where
  /-- `ValueError("Invalid master password")`. -/
  | invalidMasterPassword
  /-- `ValueError("Vault not initialized")` raised by `get_salt`. -/
  | notInitialized
  /-- `bytes.fromhex` failure on a non-hex metadata value (unreachable
  from reachable states). -/
  | malformedSalt
  /-- `cryptography.fernet.InvalidToken`: tampered data or wrong key. -/
  | invalidToken
deriving DecidableEq

/-- `PasswordCrypto.encrypt_password`: Fernet encryption of one string
under the derived key, with a fresh nonce. -/
def encrypt_password (password : String) (key : DerivedKey) (nonce : Nat) :
    FernetToken :=
  ⟨password, key, nonce⟩

/-- `PasswordCrypto.decrypt_password`: Fernet decryption; fails with
`InvalidToken` when the input is not a token produced under `key`. -/
def decrypt_password (cell : FieldVal) (key : DerivedKey) :
    Except VaultError String :=
  match cell with
  | .plain _ => .error .invalidToken
  | .enc t => if t.key = key then .ok t.payload else .error .invalidToken

/-- The plaintext field map handed to `encrypt_data` (and produced by
`decrypt_data`). -/
structure PlainData where
  service : String
  username : String
  password : String
  notes : String
deriving DecidableEq

/-- The field map produced by `encrypt_data`: `service` stays plaintext,
the other three cells hold a token or an empty plaintext. -/
structure EncData where
  service : String
  username : FieldVal
  password : FieldVal
  notes : FieldVal
deriving DecidableEq

/-- One field of the `encrypt_data` loop: a truthy (non-empty) value is
encrypted, a falsy one is copied through unchanged. -/
def encField (s : String) (key : DerivedKey) (nonce : Nat) : FieldVal :=
  if !s.isEmpty then .enc (encrypt_password s key nonce) else .plain s

/-- `PasswordCrypto.encrypt_data`: derive the key once, encrypt the
`password`/`username`/`notes` fields that are non-empty (each with its own
fresh nonce), pass `service` through unchanged. -/
def encrypt_data (data : PlainData) (master_password : String) (salt : Salt)
    (nonce : Nat) : EncData :=
  let key := derive_key master_password salt
  { service := data.service
    username := encField data.username key (nonce + 1)
    password := encField data.password key nonce
    notes := encField data.notes key (nonce + 2) }

/-- One field of the `decrypt_data` loop: a truthy cell is decrypted
(`decrypt_password`), a falsy cell — necessarily the empty string — is
copied through unchanged. -/
def decField (cell : FieldVal) (key : DerivedKey) : Except VaultError String :=
  match cell with
  | .plain s => if s.isEmpty then .ok s else decrypt_password (.plain s) key
  | .enc t => decrypt_password (.enc t) key

/-- `PasswordCrypto.decrypt_data`: derive the key once, decrypt the truthy
fields, copy falsy fields and `service` through; the first `InvalidToken`
aborts the call (propagates as a raised exception). -/
def decrypt_data (ed : EncData) (master_password : String) (salt : Salt) :
    Except VaultError PlainData := do
  let key := derive_key master_password salt
  let password ← decField ed.password key
  let username ← decField ed.username key
  let notes ← decField ed.notes key
  return { service := ed.service, username := username,
           password := password, notes := notes }

/-- A value stored in the `metadata` key/value table.  In SQLite both are
strings; the tag records which symbolic object the string encodes (an
Argon2 verifier, or the hex-encoded 16-byte salt — hex encoding is a
bijection on byte strings and is absorbed here). -/
inductive MetaVal where
  | hashV (h : MasterHash)
  | saltV (s : Salt)
deriving DecidableEq

/-- One row of the `passwords` table. -/
structure Row where
  service : String
  username : FieldVal
  password : FieldVal
  notes : FieldVal
  created_at : Nat
  updated_at : Nat
deriving DecidableEq

/-- The persistent SQLite database: the `passwords` table (in insertion
order) and the `metadata` key/value table (`key TEXT PRIMARY KEY`). -/
structure VaultDB where
  passwords : List Row
  metadata : List (String × MetaVal)
deriving DecidableEq

/-- `_init_database` on a fresh file: both tables exist and are empty. -/
def emptyDB : VaultDB := ⟨[], []⟩

/-- `SELECT value FROM metadata WHERE key = ?` (first match, if any). -/
def selectMeta (db : VaultDB) (k : String) : Option MetaVal :=
  (db.metadata.find? fun kv => kv.1 == k).map (·.2)

/-- `PasswordStorage.is_initialized`: a `master_hash` metadata row exists. -/
def is_initialized (db : VaultDB) : Bool :=
  (selectMeta db "master_hash").isSome

/-- `PasswordStorage.initialize_vault`: refuse if already initialized,
otherwise generate a salt (passed in: `salt`), Argon2-hash the master
password (internal Argon2 salt passed in: `argonSalt`) and insert the two
metadata rows.  Returns (result, new database state). -/
def initialize_vault (db : VaultDB) (master_password : String) (salt : Salt)
    (argonSalt : Nat) : Bool × VaultDB :=
  if is_initialized db then (false, db)
  else
    (true,
     { db with
       metadata := db.metadata ++
         [("master_hash", .hashV (hash_master_password master_password argonSalt)),
          ("salt", .saltV salt)] })

/-- `PasswordStorage.verify_master_password`: `false` when no
`master_hash` row exists, otherwise Argon2 verification against it.
(A non-verifier value under the `master_hash` key cannot arise from the
operations of this store; Argon2 would reject it as malformed.) -/
def verify_master_password (db : VaultDB) (master_password : String) : Bool :=
  match selectMeta db "master_hash" with
  | some (.hashV h) => crypto_verify master_password h
  | _ => false

/-- `PasswordStorage.get_salt`: read and hex-decode the vault salt;
raises `ValueError("Vault not initialized")` when the row is missing. -/
def get_salt (db : VaultDB) : Except VaultError Salt :=
  match selectMeta db "salt" with
  | some (.saltV s) => .ok s
  | some (.hashV _) => .error .malformedSalt
  | none => .error .notInitialized

/-- A decrypted record as returned by `get_password` / `search_services`
(the plaintext fields plus the stored timestamps). -/
structure Entry where
  service : String
  username : String
  password : String
  notes : String
  created_at : Nat
  updated_at : Nat
deriving DecidableEq

/-- `PasswordStorage.add_password`: verify the master password (raising on
failure), load the salt, encrypt the fields, then `INSERT`; the UNIQUE
constraint on `service` turns a duplicate into `IntegrityError`, caught
and returned as `false`.  `nonce` seeds the fresh Fernet nonces, `now` is
`CURRENT_TIMESTAMP`. -/
def add_password (db : VaultDB) (service username password notes : String)
    (master_password : String) (nonce now : Nat) :
    Except VaultError Bool × VaultDB :=
  if ¬ verify_master_password db master_password then
    (.error .invalidMasterPassword, db)
  else
    match get_salt db with
    | .error e => (.error e, db)
    | .ok salt =>
      let ed := encrypt_data ⟨service, username, password, notes⟩
        master_password salt nonce
      if db.passwords.any (fun r => r.service == ed.service) then
        (.ok false, db)
      else
        (.ok true,
         { db with
           passwords := db.passwords ++
             [⟨ed.service, ed.username, ed.password, ed.notes, now, now⟩] })

/-- Decrypt one fetched row into an `Entry` (the tail of `get_password`
and of the `search_services` loop). -/
def decryptRow (r : Row) (master_password : String) (salt : Salt) :
    Except VaultError Entry := do
  let d ← decrypt_data ⟨r.service, r.username, r.password, r.notes⟩
    master_password salt
  return ⟨d.service, d.username, d.password, d.notes, r.created_at, r.updated_at⟩

/-- `PasswordStorage.get_password`: verify (raising on failure), fetch the
row with `service = ?` (exact, case-sensitive match), return `none` when
absent, otherwise load the salt and decrypt. -/
def get_password (db : VaultDB) (service master_password : String) :
    Except VaultError (Option Entry) × VaultDB :=
  if ¬ verify_master_password db master_password then
    (.error .invalidMasterPassword, db)
  else
    match db.passwords.find? (fun r => r.service == service) with
    | none => (.ok none, db)
    | some r =>
      match get_salt db with
      | .error e => (.error e, db)
      | .ok salt =>
        match decryptRow r master_password salt with
        | .error e => (.error e, db)
        | .ok entry => (.ok (some entry), db)

/-- `PasswordStorage.list_services`:
`SELECT service FROM passwords ORDER BY service` — plaintext service
names in ascending order (SQLite BINARY collation = codepoint order); no
master password parameter, no verification, no decryption. -/
def list_services (db : VaultDB) : List String :=
  List.insertionSort (· ≤ ·) (db.passwords.map (·.service))

/-- `PasswordStorage.update_password`: verify (raising on failure), load
the salt, encrypt the new fields, then `UPDATE ... WHERE service = ?`
setting `username`, `password`, `notes` and `updated_at`; `false` when the
rowcount is zero. -/
def update_password (db : VaultDB) (service username password notes : String)
    (master_password : String) (nonce now : Nat) :
    Except VaultError Bool × VaultDB :=
  if ¬ verify_master_password db master_password then
    (.error .invalidMasterPassword, db)
  else
    match get_salt db with
    | .error e => (.error e, db)
    | .ok salt =>
      let ed := encrypt_data ⟨service, username, password, notes⟩
        master_password salt nonce
      if db.passwords.countP (fun r => r.service == service) = 0 then
        (.ok false, db)
      else
        (.ok true,
         { db with
           passwords := db.passwords.map (fun r =>
             if r.service == service then
               { r with username := ed.username, password := ed.password,
                        notes := ed.notes, updated_at := now }
             else r) })

/-- `PasswordStorage.delete_password`: verify (raising on failure), then
`DELETE FROM passwords WHERE service = ?`; `false` when the rowcount is
zero. -/
def delete_password (db : VaultDB) (service master_password : String) :
    Except VaultError Bool × VaultDB :=
  if ¬ verify_master_password db master_password then
    (.error .invalidMasterPassword, db)
  else
    if db.passwords.countP (fun r => r.service == service) = 0 then
      (.ok false, db)
    else
      (.ok true,
       { db with
         passwords := db.passwords.filter (fun r => !(r.service == service)) })

/-- SQLite's default case folding for `LIKE`: ASCII letters only. -/
def likeFold (c : Char) : Char :=
  if 'A' ≤ c ∧ c ≤ 'Z' then Char.ofNat (c.toNat + 32) else c

/-- SQLite `LIKE` pattern matching (default settings): `%` matches any
sequence of characters, `_` matches exactly one character, every other
pattern character compares case-insensitively on ASCII letters.  A
leading `%` consumes an arbitrary prefix, i.e. the rest of the pattern
must match some suffix of the string. -/
def likeMatch : List Char → List Char → Bool
  | [], s => s.isEmpty
  | p :: ps, s =>
    if p = '%' then
      s.tails.any (fun s' => likeMatch ps s')
    else
      match s with
      | [] => false
      | c :: s' => (p = '_' || likeFold p == likeFold c) && likeMatch ps s'

/-- `service LIKE '%' || keyword || '%'`, as `search_services` issues it. -/
def likeContains (keyword service : String) : Bool :=
  likeMatch ("%" ++ keyword ++ "%").toList service.toList

/-- `ORDER BY service` (ascending, BINARY collation) on fetched rows. -/
def sortRows (rows : List Row) : List Row :=
  List.insertionSort (fun a b => a.service ≤ b.service) rows

/-- The decryption loop of `search_services`: decrypt every fetched row in
order; the first failure raises out of the whole call. -/
def decryptRows (rows : List Row) (master_password : String) (salt : Salt) :
    Except VaultError (List Entry) :=
  match rows with
  | [] => .ok []
  | r :: rs => do
    let e ← decryptRow r master_password salt
    let es ← decryptRows rs master_password salt
    return e :: es

/-- `PasswordStorage.search_services`: verify (raising on failure), fetch
the rows with `service LIKE '%keyword%' ORDER BY service`, load the salt,
decrypt every fetched row, and return the decrypted entries. -/
def search_services (db : VaultDB) (keyword master_password : String) :
    Except VaultError (List Entry) × VaultDB :=
  if ¬ verify_master_password db master_password then
    (.error .invalidMasterPassword, db)
  else
    let rows := sortRows (db.passwords.filter
      (fun r => likeContains keyword r.service))
    match get_salt db with
    | .error e => (.error e, db)
    | .ok salt =>
      match decryptRows rows master_password salt with
      | .error e => (.error e, db)
      | .ok es => (.ok es, db)

/-- One call of the store's public interface, as a relation on database
states (the parameters of each call are existentially packed). -/
inductive Step : VaultDB → VaultDB → Prop where
  | init (db : VaultDB) (mp : String) (salt : Salt) (asalt : Nat) :
      Step db (initialize_vault db mp salt asalt).2
  | add (db : VaultDB) (svc u p n mp : String) (nonce now : Nat) :
      Step db (add_password db svc u p n mp nonce now).2
  | get (db : VaultDB) (svc mp : String) :
      Step db (get_password db svc mp).2
  | update (db : VaultDB) (svc u p n mp : String) (nonce now : Nat) :
      Step db (update_password db svc u p n mp nonce now).2
  | delete (db : VaultDB) (svc mp : String) :
      Step db (delete_password db svc mp).2
  | search (db : VaultDB) (kw mp : String) :
      Step db (search_services db kw mp).2

/-- Database states reachable from a fresh database through the store's
interface. -/
def Reachable (db : VaultDB) : Prop :=
  Relation.ReflTransGen Step emptyDB db

/-! ### Auxiliary notions used to state the claims -/

/-- A stored cell is well keyed with respect to `key`: it is either the
empty plaintext or a token produced under `key`. -/
def goodField (key : DerivedKey) : FieldVal → Bool
  | .plain s => s.isEmpty
  | .enc t => t.key == key

/-- All three encrypted cells of a row are well keyed. -/
def goodRow (key : DerivedKey) (r : Row) : Bool :=
  goodField key r.username && goodField key r.password && goodField key r.notes

/-- The ideal plaintext of a stored cell (the payload of a token, the
string itself otherwise). -/
def fieldPlain : FieldVal → String
  | .plain s => s
  | .enc t => t.payload

/-- The entry a well-keyed row decrypts to. -/
def rowEntry (r : Row) : Entry :=
  ⟨r.service, fieldPlain r.username, fieldPlain r.password, fieldPlain r.notes,
   r.created_at, r.updated_at⟩

/-- Stated from the spec's words for claim C3, to be compared with the
code's `LIKE`-based match: `keyword` occurs in `s` as a case-sensitive
substring. -/
def caseSensitiveSubstring (keyword s : String) : Bool :=
  s.toList.tails.any (fun t => keyword.toList.isPrefixOf t)

/-- The metadata invariant of claim C7: the metadata table is empty or
holds exactly the `(master_hash, salt)` pair. -/
def MetaInv (db : VaultDB) : Prop :=
  db.metadata = [] ∨
    ∃ h s, db.metadata = [("master_hash", MetaVal.hashV h), ("salt", MetaVal.saltV s)]

/-! ### Concrete states used by witnesses and counterexamples -/

/-- A concrete 16-byte salt. -/
def saltC : Salt := List.replicate 16 7

/-- A vault freshly initialized with master password `"correct"`. -/
def dbInit : VaultDB := (initialize_vault emptyDB "correct" saltC 0).2

/-- `dbInit` after adding a record for service `"GitHub"`. -/
def dbGit : VaultDB := (add_password dbInit "GitHub" "u" "p" "" "correct" 0 1).2

/-- A one-record database whose record shares only its service name with
`dbGit` (different field contents, timestamps and metadata); used to
witness that `list_services` depends on nothing else. -/
def dbJunk : VaultDB :=
  ⟨[⟨"GitHub", .plain "junk", .plain "pw", .plain "x", 0, 9⟩], []⟩

instance : IsTotal Row (fun a b => a.service ≤ b.service) :=
  ⟨fun a b => le_total a.service b.service⟩

instance : IsTrans Row (fun a b => a.service ≤ b.service) :=
  ⟨fun _ _ _ h1 h2 => le_trans h1 h2⟩

/-! ### Helper lemmas -/

theorem decField_encField (s : String) (key : DerivedKey) (nonce : Nat) :
    decField (encField s key nonce) key = .ok s := by
  by_cases h : s.isEmpty <;>
    simp [decField, encField, encrypt_password, decrypt_password, h]

theorem decField_good {key : DerivedKey} {f : FieldVal}
    (h : goodField key f = true) : decField f key = .ok (fieldPlain f) := by
  cases f with
  | plain s =>
    simp only [goodField] at h
    simp [decField, fieldPlain, h]
  | enc t =>
    simp only [goodField, beq_iff_eq] at h
    simp [decField, fieldPlain, decrypt_password, h]

theorem decryptRow_good {key : DerivedKey} {mp : String} {salt : Salt}
    {r : Row} (hk : derive_key mp salt = key) (h : goodRow key r = true) :
    decryptRow r mp salt = .ok (rowEntry r) := by
  simp only [goodRow, Bool.and_eq_true] at h
  obtain ⟨⟨hu, hp⟩, hn⟩ := h
  simp [decryptRow, decrypt_data, hk, decField_good hu, decField_good hp,
    decField_good hn, rowEntry, Bind.bind, Except.bind, pure, Except.pure]

theorem decryptRows_good {key : DerivedKey} {mp : String} {salt : Salt}
    {rows : List Row} (hk : derive_key mp salt = key)
    (h : ∀ r ∈ rows, goodRow key r = true) :
    decryptRows rows mp salt = .ok (rows.map rowEntry) := by
  induction rows with
  | nil => rfl
  | cons r rs ih =>
    have hr : goodRow key r = true := h r (List.mem_cons_self r rs)
    have hrs : ∀ x ∈ rs, goodRow key x = true :=
      fun x hx => h x (List.mem_cons_of_mem r hx)
    simp [decryptRows, decryptRow_good hk hr, ih hrs, Bind.bind, Except.bind, pure, Except.pure]

/-- All five password-gated operations raise
`ValueError("Invalid master password")` and leave the database untouched
whenever verification fails. -/
theorem ops_fail_on_bad_password (db : VaultDB) (p' : String)
    (hv : verify_master_password db p' = false)
    (svc u p n : String) (nonce now : Nat) :
    add_password db svc u p n p' nonce now = (.error .invalidMasterPassword, db) ∧
    get_password db svc p' = (.error .invalidMasterPassword, db) ∧
    update_password db svc u p n p' nonce now = (.error .invalidMasterPassword, db) ∧
    delete_password db svc p' = (.error .invalidMasterPassword, db) ∧
    search_services db svc p' = (.error .invalidMasterPassword, db) := by
  refine ⟨?_, ?_, ?_, ?_, ?_⟩ <;>
    simp [add_password, get_password, update_password, delete_password,
      search_services, hv]

theorem add_password_metadata (db : VaultDB) (svc u p n mp : String)
    (nonce now : Nat) :
    (add_password db svc u p n mp nonce now).2.metadata = db.metadata := by
  unfold add_password
  split
  · rfl
  · split
    · rfl
    · dsimp only
      split <;> rfl

theorem get_password_metadata (db : VaultDB) (svc mp : String) :
    (get_password db svc mp).2.metadata = db.metadata := by
  unfold get_password
  split
  · rfl
  · split
    · rfl
    · split
      · rfl
      · split <;> rfl

theorem update_password_metadata (db : VaultDB) (svc u p n mp : String)
    (nonce now : Nat) :
    (update_password db svc u p n mp nonce now).2.metadata = db.metadata := by
  unfold update_password
  split
  · rfl
  · split
    · rfl
    · split <;> rfl

theorem delete_password_metadata (db : VaultDB) (svc mp : String) :
    (delete_password db svc mp).2.metadata = db.metadata := by
  unfold delete_password
  split
  · rfl
  · split <;> rfl

theorem search_services_metadata (db : VaultDB) (kw mp : String) :
    (search_services db kw mp).2.metadata = db.metadata := by
  unfold search_services
  split
  · rfl
  · dsimp only
    split
    · rfl
    · split <;> rfl

theorem is_initialized_of_pair (db : VaultDB) (h : MasterHash) (s : Salt)
    (hpair : db.metadata =
      [("master_hash", MetaVal.hashV h), ("salt", MetaVal.saltV s)]) :
    is_initialized db = true := by
  unfold is_initialized selectMeta
  rw [hpair]
  rfl

theorem likeMatch_percent (ps l : List Char) :
    likeMatch ('%' :: ps) l = l.tails.any (fun t => likeMatch ps t) := rfl

theorem likeContains_empty (s : String) : likeContains "" s = true := by
  show likeMatch ['%', '%'] s.toList = true
  rw [likeMatch_percent]
  refine List.any_eq_true.mpr ⟨[], ?_, rfl⟩
  simp [List.mem_tails]

/-! ### Claims -/

/-- C1: for every field map of strings, every master password and every
16-byte salt, `decrypt_data` applied with the same master password and
salt to the output of `encrypt_data` reproduces the original field values
exactly, and `encrypt_data` passes the service field through unchanged. -/
theorem C1_encrypt_decrypt_roundtrip (data : PlainData) (mp : String)
    (salt : Salt) (nonce : Nat) (hsalt : salt.length = 16) :
    decrypt_data (encrypt_data data mp salt nonce) mp salt = .ok data ∧
    (encrypt_data data mp salt nonce).service = data.service := by
  obtain ⟨sv, u, p, n⟩ := data
  constructor
  · simp [encrypt_data, decrypt_data, decField_encField, Bind.bind,
      Except.bind, pure, Except.pure]
  · rfl

/-- Witness for C1: the round trip at a concrete field map, master
password and 16-byte salt. -/
theorem C1_witness :
    saltC.length = 16 ∧
    (decrypt_data
        (encrypt_data ⟨"Gmail", "user", "secret123", "My email"⟩ "master" saltC 0)
        "master" saltC =
      .ok ⟨"Gmail", "user", "secret123", "My email"⟩ ∧
    (encrypt_data ⟨"Gmail", "user", "secret123", "My email"⟩ "master" saltC 0).service =
      "Gmail") :=
  ⟨by decide,
   C1_encrypt_decrypt_roundtrip ⟨"Gmail", "user", "secret123", "My email"⟩
     "master" saltC 0 (by decide)⟩

/-- C2: on any vault and any password that fails verification, each of
add/get/update/delete/search raises `ValueError("Invalid master
password")` and returns the database completely unchanged (records and
metadata), and the outcome carries no record data. -/
theorem C2_wrong_password_rejected_everywhere (db : VaultDB) (p' : String)
    (hv : verify_master_password db p' = false)
    (svc u p n : String) (nonce now : Nat) :
    add_password db svc u p n p' nonce now = (.error .invalidMasterPassword, db) ∧
    get_password db svc p' = (.error .invalidMasterPassword, db) ∧
    update_password db svc u p n p' nonce now = (.error .invalidMasterPassword, db) ∧
    delete_password db svc p' = (.error .invalidMasterPassword, db) ∧
    search_services db svc p' = (.error .invalidMasterPassword, db) :=
  ops_fail_on_bad_password db p' hv svc u p n nonce now

/-- Witness for C2: a vault initialized with `"correct"` rejects
`"wrong"` on all five operations, unchanged. -/
theorem C2_witness :
    verify_master_password dbInit "wrong" = false ∧
    (add_password dbInit "Gmail" "u" "p" "n" "wrong" 0 1 =
        (.error .invalidMasterPassword, dbInit) ∧
    get_password dbInit "Gmail" "wrong" = (.error .invalidMasterPassword, dbInit) ∧
    update_password dbInit "Gmail" "u" "p" "n" "wrong" 0 1 =
        (.error .invalidMasterPassword, dbInit) ∧
    delete_password dbInit "Gmail" "wrong" = (.error .invalidMasterPassword, dbInit) ∧
    search_services dbInit "Gmail" "wrong" = (.error .invalidMasterPassword, dbInit)) :=
  ⟨by decide,
   C2_wrong_password_rejected_everywhere dbInit "wrong" (by decide) "Gmail" "u" "p" "n" 0 1⟩

/-- C10: on a vault with no `master_hash` metadata entry,
`verify_master_password` returns `false` for every candidate, so all five
gated operations fail with exactly the same
`ValueError("Invalid master password")` outcome as a wrong password on an
initialized vault, leaving the database unchanged. -/
theorem C10_uninitialized_behaves_like_wrong_password (db : VaultDB)
    (hinit : is_initialized db = false)
    (candidate svc u p n : String) (nonce now : Nat) :
    verify_master_password db candidate = false ∧
    (add_password db svc u p n candidate nonce now =
        (.error .invalidMasterPassword, db) ∧
    get_password db svc candidate = (.error .invalidMasterPassword, db) ∧
    update_password db svc u p n candidate nonce now =
        (.error .invalidMasterPassword, db) ∧
    delete_password db svc candidate = (.error .invalidMasterPassword, db) ∧
    search_services db svc candidate = (.error .invalidMasterPassword, db)) := by
  have hnone : selectMeta db "master_hash" = none := by
    unfold is_initialized at hinit
    exact Option.not_isSome_iff_eq_none.mp (by simp [hinit])
  have hv : verify_master_password db candidate = false := by
    simp [verify_master_password, hnone]
  exact ⟨hv, ops_fail_on_bad_password db candidate hv svc u p n nonce now⟩

/-- Witness for C10: the fresh database is uninitialized and rejects an
arbitrary candidate password on every operation. -/
theorem C10_witness :
    verify_master_password emptyDB "anything" = false ∧
    (add_password emptyDB "Gmail" "u" "p" "n" "anything" 0 1 =
        (.error .invalidMasterPassword, emptyDB) ∧
    get_password emptyDB "Gmail" "anything" = (.error .invalidMasterPassword, emptyDB) ∧
    update_password emptyDB "Gmail" "u" "p" "n" "anything" 0 1 =
        (.error .invalidMasterPassword, emptyDB) ∧
    delete_password emptyDB "Gmail" "anything" = (.error .invalidMasterPassword, emptyDB) ∧
    search_services emptyDB "Gmail" "anything" = (.error .invalidMasterPassword, emptyDB)) :=
  C10_uninitialized_behaves_like_wrong_password emptyDB (by decide)
    "anything" "Gmail" "u" "p" "n" 0 1

/-- C4 counterexample: on a vault initialized with `"correct"`, `add`
called with the wrong master password does not surface the condition as a
structured return value — it raises `ValueError("Invalid master
password")` (an `Except.error` outcome in this embedding, as the
repository's own tests expect via `pytest.raises`). -/
theorem C4_counterexample :
    (add_password dbInit "Gmail" "u" "p" "" "wrong" 0 1).1 =
      .error .invalidMasterPassword := by decide

/-- C4 as amended: duplicate service on add and missing record on
get/update/delete are surfaced as structured return values (`ok false` /
`ok none`), but an invalid master password is raised as a `ValueError`
exception, not returned. -/
theorem C4_amended_error_propagation (db : VaultDB) (svc u p n mp : String)
    (nonce now : Nat) (salt : Salt)
    (hv : verify_master_password db mp = true)
    (hs : get_salt db = .ok salt) :
    ((∃ r ∈ db.passwords, r.service = svc) →
      (add_password db svc u p n mp nonce now).1 = .ok false) ∧
    ((∀ r ∈ db.passwords, r.service ≠ svc) →
      (get_password db svc mp).1 = .ok none ∧
      (update_password db svc u p n mp nonce now).1 = .ok false ∧
      (delete_password db svc mp).1 = .ok false) ∧
    (∀ p', verify_master_password db p' = false →
      (add_password db svc u p n p' nonce now).1 = .error .invalidMasterPassword) := by
  refine ⟨?_, ?_, ?_⟩
  · rintro ⟨r, hr, hrs⟩
    have hany : db.passwords.any (fun x => x.service == svc) = true := by
      rw [List.any_eq_true]
      exact ⟨r, hr, by simp [hrs]⟩
    simp [add_password, hv, hs, encrypt_data, hany]
  · intro h
    have hfind : db.passwords.find? (fun r => r.service == svc) = none :=
      List.find?_eq_none.mpr (fun x hx => by simp [h x hx])
    have hcnt : db.passwords.countP (fun r => r.service == svc) = 0 :=
      List.countP_eq_zero.mpr (fun x hx => by simp [h x hx])
    exact ⟨by simp [get_password, hv, hfind],
           by simp [update_password, hv, hs, hcnt],
           by simp [delete_password, hv, hcnt]⟩
  · intro p' hv'
    rw [(ops_fail_on_bad_password db p' hv' svc u p n nonce now).1]

/-- Witness for C4 (amended) on the one-record vault `dbGit`. -/
theorem C4_witness :
    ((∃ r ∈ dbGit.passwords, r.service = "GitHub") →
      (add_password dbGit "GitHub" "u" "p" "n" "correct" 0 2).1 = .ok false) ∧
    ((∀ r ∈ dbGit.passwords, r.service ≠ "GitHub") →
      (get_password dbGit "GitHub" "correct").1 = .ok none ∧
      (update_password dbGit "GitHub" "u" "p" "n" "correct" 0 2).1 = .ok false ∧
      (delete_password dbGit "GitHub" "correct").1 = .ok false) ∧
    (∀ p', verify_master_password dbGit p' = false →
      (add_password dbGit "GitHub" "u" "p" "n" p' 0 2).1 =
        .error .invalidMasterPassword) :=
  C4_amended_error_propagation dbGit "GitHub" "u" "p" "n" "correct" 0 2 saltC
    (by decide) (by decide)

/-- C5: with the master password verified and a record of the same
service already stored, `add` returns `false` and leaves the whole
database — in particular the existing record's fields — unchanged; and
verification is signaled before the uniqueness check: with a failing
password the same call raises `ValueError("Invalid master password")`
even though the duplicate exists. -/
theorem C5_duplicate_add (db : VaultDB) (svc u p n mp : String)
    (nonce now : Nat) (salt : Salt)
    (hv : verify_master_password db mp = true)
    (hs : get_salt db = .ok salt)
    (hdup : ∃ r ∈ db.passwords, r.service = svc) :
    add_password db svc u p n mp nonce now = (.ok false, db) ∧
    (∀ p', verify_master_password db p' = false →
      add_password db svc u p n p' nonce now = (.error .invalidMasterPassword, db)) := by
  obtain ⟨r, hr, hrs⟩ := hdup
  have hany : db.passwords.any (fun x => x.service == svc) = true := by
    rw [List.any_eq_true]
    exact ⟨r, hr, by simp [hrs]⟩
  constructor
  · simp [add_password, hv, hs, encrypt_data, hany]
  · exact fun p' hv' => (ops_fail_on_bad_password db p' hv' svc u p n nonce now).1

/-- Witness for C5: adding `"GitHub"` again to `dbGit`. -/
theorem C5_witness :
    add_password dbGit "GitHub" "u2" "p2" "n2" "correct" 4 9 = (.ok false, dbGit) ∧
    (∀ p', verify_master_password dbGit p' = false →
      add_password dbGit "GitHub" "u2" "p2" "n2" p' 4 9 =
        (.error .invalidMasterPassword, dbGit)) :=
  C5_duplicate_add dbGit "GitHub" "u2" "p2" "n2" "correct" 4 9 saltC
    (by decide) (by decide) (by decide)

/-- C6: with the master password verified, `update` returns `false` and
changes nothing when no record matches the service; when a record
matches, it overwrites exactly the username/password/notes ciphertexts
and sets `updated_at` to the current time, leaving the service name,
`created_at`, every other record and the metadata unchanged. -/
theorem C6_update_frame (db : VaultDB) (svc u p n mp : String)
    (nonce now : Nat) (salt : Salt)
    (hv : verify_master_password db mp = true)
    (hs : get_salt db = .ok salt) :
    ((∀ r ∈ db.passwords, r.service ≠ svc) →
      update_password db svc u p n mp nonce now = (.ok false, db)) ∧
    ((∃ r ∈ db.passwords, r.service = svc) →
      (update_password db svc u p n mp nonce now).1 = .ok true ∧
      (update_password db svc u p n mp nonce now).2.metadata = db.metadata ∧
      (update_password db svc u p n mp nonce now).2.passwords.length =
        db.passwords.length ∧
      ∀ (i : Nat) (r : Row), db.passwords[i]? = some r →
        ∃ r' : Row,
          (update_password db svc u p n mp nonce now).2.passwords[i]? = some r' ∧
          r'.service = r.service ∧
          r'.created_at = r.created_at ∧
          (r.service ≠ svc → r' = r) ∧
          (r.service = svc →
            r'.username = encField u (derive_key mp salt) (nonce + 1) ∧
            r'.password = encField p (derive_key mp salt) nonce ∧
            r'.notes = encField n (derive_key mp salt) (nonce + 2) ∧
            r'.updated_at = now)) := by
  constructor
  · intro h
    have hcnt : db.passwords.countP (fun r => r.service == svc) = 0 :=
      List.countP_eq_zero.mpr (fun x hx => by simp [h x hx])
    simp [update_password, hv, hs, hcnt]
  · rintro ⟨r0, hr0, hrs0⟩
    have hpos : ¬ db.passwords.countP (fun r => r.service == svc) = 0 := by
      have h1 : 0 < db.passwords.countP (fun r => r.service == svc) :=
        List.countP_pos_iff.mpr ⟨r0, hr0, by simp [hrs0]⟩
      omega
    have hupd : update_password db svc u p n mp nonce now =
        (.ok true,
         { db with passwords := db.passwords.map (fun r =>
             if r.service == svc then
               { r with username := encField u (derive_key mp salt) (nonce + 1),
                        password := encField p (derive_key mp salt) nonce,
                        notes := encField n (derive_key mp salt) (nonce + 2),
                        updated_at := now }
             else r) }) := by
      simp [update_password, hv, hs, hpos, encrypt_data]
    refine ⟨by rw [hupd], by rw [hupd], by rw [hupd]; simp, ?_⟩
    intro i r hi
    rw [hupd]
    simp only [List.getElem?_map, hi, Option.map_some]
    by_cases hc : r.service = svc
    · exact ⟨_, rfl, by simp [hc]⟩
    · have hne : (r.service == svc) = false := by simp [hc]
      exact ⟨_, rfl, by simp [hne, hc]⟩

/-- Witness for C6: updating `"GitHub"` in the one-record vault `dbGit`
and updating a missing service. -/
theorem C6_witness :
    ((∀ r ∈ dbGit.passwords, r.service ≠ "GitHub") →
      update_password dbGit "GitHub" "nu" "np" "nn" "correct" 6 9 = (.ok false, dbGit)) ∧
    ((∃ r ∈ dbGit.passwords, r.service = "GitHub") →
      (update_password dbGit "GitHub" "nu" "np" "nn" "correct" 6 9).1 = .ok true ∧
      (update_password dbGit "GitHub" "nu" "np" "nn" "correct" 6 9).2.metadata =
        dbGit.metadata ∧
      (update_password dbGit "GitHub" "nu" "np" "nn" "correct" 6 9).2.passwords.length =
        dbGit.passwords.length ∧
      ∀ (i : Nat) (r : Row), dbGit.passwords[i]? = some r →
        ∃ r' : Row,
          (update_password dbGit "GitHub" "nu" "np" "nn" "correct" 6 9).2.passwords[i]? =
            some r' ∧
          r'.service = r.service ∧
          r'.created_at = r.created_at ∧
          (r.service ≠ "GitHub" → r' = r) ∧
          (r.service = "GitHub" →
            r'.username = encField "nu" (derive_key "correct" saltC) 7 ∧
            r'.password = encField "np" (derive_key "correct" saltC) 6 ∧
            r'.notes = encField "nn" (derive_key "correct" saltC) 8 ∧
            r'.updated_at = 9)) :=
  C6_update_frame dbGit "GitHub" "nu" "np" "nn" "correct" 6 9 saltC
    (by decide) (by decide)

/-- C7: on every reachable vault state the metadata table is empty or
holds exactly one `(master_hash, salt)` pair; `initialize_vault` returns
`false` (raising nothing) whenever a `master_hash` entry already exists;
and no other operation ever modifies the metadata. -/
theorem C7_initialize_at_most_once (db : VaultDB) (hr : Reachable db) :
    MetaInv db ∧
    (is_initialized db = true →
      ∀ mp salt asalt, initialize_vault db mp salt asalt = (false, db)) ∧
    (∀ svc u p n mp nonce now,
      (add_password db svc u p n mp nonce now).2.metadata = db.metadata) ∧
    (∀ svc mp, (get_password db svc mp).2.metadata = db.metadata) ∧
    (∀ svc u p n mp nonce now,
      (update_password db svc u p n mp nonce now).2.metadata = db.metadata) ∧
    (∀ svc mp, (delete_password db svc mp).2.metadata = db.metadata) ∧
    (∀ kw mp, (search_services db kw mp).2.metadata = db.metadata) := by
  have hinv : MetaInv db := by
    unfold Reachable at hr
    induction hr with
    | refl => exact Or.inl rfl
    | tail hsteps step ih =>
      rename_i db0 db1
      cases step with
      | init mp salt asalt =>
        by_cases hini : is_initialized db0 = true
        · simpa [initialize_vault, hini] using ih
        · rcases ih with h0 | ⟨h, s, hpair⟩
          · right
            exact ⟨hash_master_password mp asalt, salt,
              by simp [initialize_vault, hini, h0]⟩
          · exact absurd (is_initialized_of_pair db0 h s hpair) hini
      | add svc u p n mp nonce now =>
        unfold MetaInv at ih ⊢
        rw [add_password_metadata]
        exact ih
      | get svc mp =>
        unfold MetaInv at ih ⊢
        rw [get_password_metadata]
        exact ih
      | update svc u p n mp nonce now =>
        unfold MetaInv at ih ⊢
        rw [update_password_metadata]
        exact ih
      | delete svc mp =>
        unfold MetaInv at ih ⊢
        rw [delete_password_metadata]
        exact ih
      | search kw mp =>
        unfold MetaInv at ih ⊢
        rw [search_services_metadata]
        exact ih
  refine ⟨hinv, ?_, add_password_metadata db, get_password_metadata db,
    update_password_metadata db, delete_password_metadata db,
    search_services_metadata db⟩
  intro hini mp salt asalt
  simp [initialize_vault, hini]

/-- Witness for C7 at the reachable state `dbInit`. -/
theorem C7_witness :
    MetaInv dbInit ∧
    (is_initialized dbInit = true →
      ∀ mp salt asalt, initialize_vault dbInit mp salt asalt = (false, dbInit)) ∧
    (∀ svc u p n mp nonce now,
      (add_password dbInit svc u p n mp nonce now).2.metadata = dbInit.metadata) ∧
    (∀ svc mp, (get_password dbInit svc mp).2.metadata = dbInit.metadata) ∧
    (∀ svc u p n mp nonce now,
      (update_password dbInit svc u p n mp nonce now).2.metadata = dbInit.metadata) ∧
    (∀ svc mp, (delete_password dbInit svc mp).2.metadata = dbInit.metadata) ∧
    (∀ kw mp, (search_services dbInit kw mp).2.metadata = dbInit.metadata) :=
  C7_initialize_at_most_once dbInit
    (Relation.ReflTransGen.single (Step.init emptyDB "correct" saltC 0))

/-- C8 counterexample: `add_password` called with an empty plaintext
password succeeds, and the stored record's password cell is the empty
string — neither non-empty nor ciphertext — because `encrypt_data` copies
falsy fields through unencrypted. -/
theorem C8_counterexample :
    (add_password dbInit "Svc" "u" "" "" "correct" 0 5).1 = .ok true ∧
    (add_password dbInit "Svc" "u" "" "" "correct" 0 5).2.passwords.find?
        (fun r => r.service == "Svc") =
      some ⟨"Svc", .enc ⟨"u", derive_key "correct" saltC, 1⟩,
        .plain "", .plain "", 5, 5⟩ ∧
    FieldVal.truthy (.plain "") = false := by decide

/-- C8 as amended: every record stored by a successful add whose
plaintext password is non-empty holds a non-empty (truthy) ciphertext
that decrypts, under the key derived from the vault salt used by the call
and the same master password, back to the original password; an add with
an empty plaintext password instead stores the empty string unencrypted. -/
theorem C8_amended_stored_password (db : VaultDB) (svc u p n mp : String)
    (nonce now : Nat) (salt : Salt)
    (hv : verify_master_password db mp = true)
    (hs : get_salt db = .ok salt)
    (hp : p ≠ "")
    (hok : (add_password db svc u p n mp nonce now).1 = .ok true) :
    ∃ row : Row,
      (add_password db svc u p n mp nonce now).2.passwords =
        db.passwords ++ [row] ∧
      row.service = svc ∧
      row.password = .enc (encrypt_password p (derive_key mp salt) nonce) ∧
      row.password.truthy = true ∧
      decField row.password (derive_key mp salt) = .ok p := by
  have hpe : p.isEmpty = false := by
    cases hq : p.isEmpty
    · rfl
    · exact absurd ((String.isEmpty_iff p).mp hq) hp
  by_cases hany : db.passwords.any (fun x => x.service == svc) = true
  · exfalso
    simp [add_password, hv, hs, encrypt_data, hany] at hok
  · have hany' : db.passwords.any (fun x => x.service == svc) = false := by
      cases hq : db.passwords.any (fun x => x.service == svc)
      · rfl
      · exact absurd hq hany
    refine ⟨⟨svc, encField u (derive_key mp salt) (nonce + 1),
      encField p (derive_key mp salt) nonce,
      encField n (derive_key mp salt) (nonce + 2), now, now⟩,
      ?_, rfl, ?_, ?_, decField_encField p (derive_key mp salt) nonce⟩
    · simp [add_password, hv, hs, encrypt_data, hany']
    · simp [encField, hpe]
    · simp [encField, hpe, FieldVal.truthy]

/-- Witness for C8 (amended): adding `"Svc"` with plaintext password
`"secret"` to `dbInit`. -/
theorem C8_witness :
    ∃ row : Row,
      (add_password dbInit "Svc" "u" "secret" "" "correct" 0 5).2.passwords =
        dbInit.passwords ++ [row] ∧
      row.service = "Svc" ∧
      row.password = .enc (encrypt_password "secret" (derive_key "correct" saltC) 0) ∧
      row.password.truthy = true ∧
      decField row.password (derive_key "correct" saltC) = .ok "secret" :=
  C8_amended_stored_password dbInit "Svc" "u" "secret" "" "correct" 0 5 saltC
    (by decide) (by decide) (by decide) (by decide)

/-- C9: `list_services` returns the plaintext service names of all stored
records in ascending lexicographic order; it takes no master-password
argument, performs no verification and decrypts nothing — its result
depends on nothing but the stored service names (any two databases with
the same service column list alike, whatever their metadata, ciphertexts
and timestamps). -/
theorem C9_list_services_plaintext_sorted (db db' : VaultDB)
    (h : db.passwords.map (·.service) = db'.passwords.map (·.service)) :
    List.Sorted (· ≤ ·) (list_services db) ∧
    (list_services db).Perm (db.passwords.map (·.service)) ∧
    list_services db = list_services db' := by
  refine ⟨List.sorted_insertionSort _ _, List.perm_insertionSort _ _, ?_⟩
  unfold list_services
  rw [h]

/-- Witness for C9: `dbGit` and a database agreeing with it only on the
service column list identically. -/
theorem C9_witness :
    List.Sorted (· ≤ ·) (list_services dbGit) ∧
    (list_services dbGit).Perm (dbGit.passwords.map (·.service)) ∧
    list_services dbGit = list_services dbJunk :=
  C9_list_services_plaintext_sorted dbGit dbJunk (by decide)

/-- C3 counterexample: the match is not a case-sensitive substring test.
On a vault holding only `"GitHub"`, searching for `"git"` returns that
record even though `"git"` is not a case-sensitive substring of
`"GitHub"` — SQLite's default `LIKE` folds ASCII case. -/
theorem C3_counterexample :
    (search_services dbGit "git" "correct").1 =
      .ok [⟨"GitHub", "u", "p", "", 1, 1⟩] ∧
    caseSensitiveSubstring "git" "GitHub" = false := by decide

/-- C3 as amended: with the master password verified and every stored
row well keyed, search returns exactly the decryptions of the records
whose plaintext service name matches the SQLite pattern
`'%' keyword '%'` (ASCII-case-insensitively, with `%`/`_` in the keyword
acting as wildcards), ordered by service name; the empty keyword matches
every record. -/
theorem C3_amended_search (db : VaultDB) (kw mp : String) (salt : Salt)
    (hv : verify_master_password db mp = true)
    (hs : get_salt db = .ok salt)
    (hg : ∀ r ∈ db.passwords, goodRow (derive_key mp salt) r = true) :
    ∃ es : List Entry,
      search_services db kw mp = (.ok es, db) ∧
      es = (sortRows (db.passwords.filter
        (fun r => likeContains kw r.service))).map rowEntry ∧
      (∀ e ∈ es, ∃ r ∈ db.passwords,
        e = rowEntry r ∧ likeContains kw r.service = true) ∧
      (∀ r ∈ db.passwords, likeContains kw r.service = true → rowEntry r ∈ es) ∧
      List.Sorted (fun a b : Entry => a.service ≤ b.service) es ∧
      (∀ s, likeContains "" s = true) ∧
      (kw = "" → es.length = db.passwords.length) := by
  have hmem : ∀ r ∈ sortRows (db.passwords.filter
      (fun r => likeContains kw r.service)),
      r ∈ db.passwords ∧ likeContains kw r.service = true := by
    intro r hr
    rw [sortRows, List.mem_insertionSort] at hr
    exact ⟨(List.mem_filter.mp hr).1, (List.mem_filter.mp hr).2⟩
  have hdec : decryptRows (sortRows (db.passwords.filter
      (fun r => likeContains kw r.service))) mp salt =
      .ok ((sortRows (db.passwords.filter
        (fun r => likeContains kw r.service))).map rowEntry) :=
    decryptRows_good rfl (fun r hr => hg r (hmem r hr).1)
  refine ⟨_, ?_, rfl, ?_, ?_, ?_, likeContains_empty, ?_⟩
  · simp [search_services, hv, hs, hdec]
  · intro e he
    rw [List.mem_map] at he
    obtain ⟨r, hr, hre⟩ := he
    exact ⟨r, (hmem r hr).1, hre.symm, (hmem r hr).2⟩
  · intro r hr hlike
    rw [List.mem_map]
    refine ⟨r, ?_, rfl⟩
    rw [sortRows, List.mem_insertionSort]
    exact List.mem_filter.mpr ⟨hr, hlike⟩
  · have hsort : List.Sorted (fun a b : Row => a.service ≤ b.service)
        (sortRows (db.passwords.filter (fun r => likeContains kw r.service))) :=
      List.sorted_insertionSort _ _
    rw [List.Sorted, List.pairwise_map]
    exact hsort
  · intro h0
    subst h0
    have hfil : db.passwords.filter (fun r => likeContains "" r.service) =
        db.passwords :=
      List.filter_eq_self.mpr (fun a _ => likeContains_empty _)
    calc ((sortRows (db.passwords.filter
          (fun r => likeContains "" r.service))).map rowEntry).length
        = (sortRows (db.passwords.filter
            (fun r => likeContains "" r.service))).length := List.length_map _ _
      _ = (db.passwords.filter (fun r => likeContains "" r.service)).length :=
          (List.perm_insertionSort _ _).length_eq
      _ = db.passwords.length := by rw [hfil]

/-- Witness for C3 (amended): searching `"Git"` on the one-record vault
`dbGit`. -/
theorem C3_witness :
    ∃ es : List Entry,
      search_services dbGit "Git" "correct" = (.ok es, dbGit) ∧
      es = (sortRows (dbGit.passwords.filter
        (fun r => likeContains "Git" r.service))).map rowEntry ∧
      (∀ e ∈ es, ∃ r ∈ dbGit.passwords,
        e = rowEntry r ∧ likeContains "Git" r.service = true) ∧
      (∀ r ∈ dbGit.passwords, likeContains "Git" r.service = true → rowEntry r ∈ es) ∧
      List.Sorted (fun a b : Entry => a.service ≤ b.service) es ∧
      (∀ s, likeContains "" s = true) ∧
      ("Git" = "" → es.length = dbGit.passwords.length) :=
  C3_amended_search dbGit "Git" "correct" saltC (by decide) (by decide) (by decide)

end Pryva
